import Mathlib

/-!
Verification of the enrichment engine of `src/app.py`
(customer-enricher: ZIP-code based demographic enrichment).

The embedding works on `List Char` / `String` for the normalizer and the
column detector, on explicit row lists for the reference store, join and
metrics, and on column-name lists for the presentation reordering.
-/

namespace CustomerEnricher

/-! ### ZipNormalizer — `clean_zip_codes` (src/app.py lines 107-111)

Python:
```
def clean_zip_codes(series):
    s = series.astype(str).str.split('.').str[0]
    s = s.str.split('-').str[0]
    s = s.str.strip().str.zfill(5)
    return s
```
Element-wise this is: take the prefix before the first `.`, then the prefix
before the first `-`, strip surrounding whitespace, and `zfill` to width 5.
-/

/-- The whitespace characters stripped by Python `str.strip()` (ASCII part). -/
def isPySpace (c : Char) : Bool :=
  c == ' ' || c == '\t' || c == '\n' || c == '\x0d' || c == '\x0b' || c == '\x0c'

/-- `s.split('.')[0]`: the prefix of the character list before the first `.`. -/
def dropDot (l : List Char) : List Char := l.takeWhile (fun c => c != '.')

/-- `s.split('-')[0]`: the prefix of the character list before the first `-`. -/
def dropDash (l : List Char) : List Char := l.takeWhile (fun c => c != '-')

/-- `s.strip()`: remove leading and trailing whitespace. -/
def stripChars (l : List Char) : List Char :=
  ((l.dropWhile isPySpace).reverse.dropWhile isPySpace).reverse

/-- Python `s.zfill(5)`: left-pad with `'0'` to length 5 (never truncates);
a leading `+`/`-` sign stays in front of the inserted zeros. -/
def zfill5 (l : List Char) : List Char :=
  match l with
  | [] => List.replicate 5 '0'
  | c :: rest =>
    if c == '+' || c == '-' then
      c :: (List.replicate (4 - rest.length) '0' ++ rest)
    else
      List.replicate (4 - rest.length) '0' ++ (c :: rest)

/-- The stripping part of `clean_zip_codes` (everything before the padding). -/
def coreList (l : List Char) : List Char := stripChars (dropDash (dropDot l))

/-- One element of `clean_zip_codes`, on character lists. -/
def cleanList (l : List Char) : List Char := zfill5 (coreList l)

/-- `clean_zip_codes` applied to one already-stringified cell value. -/
def clean_zip_codes (s : String) : String := ⟨cleanList s.data⟩

/-- The key transformation of `load_census_data` (src/app.py line 73):
`df['zip_code'].astype(str).str.zfill(5)` — zero-padding only. -/
def refLoadKey (s : String) : String := ⟨zfill5 s.data⟩

/-! ### ColumnDetector — `find_zip_column` (src/app.py lines 85-105)

Pass 1 (exact): first column whose lower-cased, stripped header is in the
candidate list. Pass 2 (fuzzy): first column whose lower-cased header
contains a candidate as a substring. `None` if neither pass matches.
-/

/-- The candidate header list of `find_zip_column`, in source order. -/
def zipCandidates : List String :=
  ["zip", "zipcode", "zip code", "zip_code",
   "postal", "postal code", "postal_code", "postcode", "post_code",
   "billing zip", "billing_zip", "billing postal", "billing_postal_code",
   "shipping zip", "shipping_zip", "shipping postal", "shipping_postal_code"]

/-- Python `str.lower()` on a header (character-wise lowering). -/
def lowerStr (s : String) : String := ⟨s.data.map Char.toLower⟩

/-- Python `str.strip()` on a header. -/
def stripStr (s : String) : String := ⟨stripChars s.data⟩

/-- Whether the first list is an initial segment of the second. -/
def startsWith : List Char → List Char → Bool
  | [], _ => true
  | _ :: _, [] => false
  | a :: as, b :: bs => a == b && startsWith as bs

/-- Python `needle in hay` on strings: substring containment. -/
def containsSub (needle : List Char) : List Char → Bool
  | [] => needle.isEmpty
  | c :: rest => startsWith needle (c :: rest) || containsSub needle rest

/-- `find_zip_column`: exact pass over the headers in column order, then
fuzzy pass over the headers in column order. -/
def find_zip_column (cols : List String) : Option String :=
  match cols.find? (fun col => zipCandidates.contains (stripStr (lowerStr col))) with
  | some col => some col
  | none =>
    cols.find? (fun col => zipCandidates.any (fun c => containsSub c.data (lowerStr col).data))

/-! ### ReferenceStore, join and metrics (src/app.py lines 250-277)

Row-level model of the processing block:
```
df['__join_zip'] = clean_zip_codes(df[zip_col])
ref_df = census_df.copy()
if exclude_low_pop: ref_df = ref_df[ref_df['population'] >= 100]
merged = pd.merge(df, ref_df, left_on='__join_zip', right_on='zip_code', how='left')
...
total_rows = len(final_df)
matched_rows = final_df['Estimated household income'].notna().sum()
match_rate = (matched_rows / total_rows) if total_rows > 0 else 0
```
A cell is `Option String` (`none` is a missing value, NaN); `astype(str)`
renders a missing value as `"nan"`. Demographic numbers are modelled as
`Option Int` (present / absent); the claims only inspect presence and
equality, never float arithmetic.
-/

/-- One row of the cached reference table (after `load_census_data`). -/
structure RefRow where
  zip_code : String
  median_income : Option Int
  median_age : Option Int
  population : Nat
  deriving DecidableEq, Repr

/-- A cell of the user table's ZIP column: `none` is a missing value. -/
def Cell : Type := Option String

instance : DecidableEq Cell := by unfold Cell; exact inferInstance

/-- `astype(str)` on one cell: a missing value stringifies to `"nan"`. -/
def cellToStr : Cell → String
  | none => "nan"
  | some s => s

/-- One row of the user table: the ZIP cell plus the remaining cells,
carried opaquely. -/
structure InputRow where
  zipCell : Cell
  rest : List String
  deriving DecidableEq

/-- The canonical join key of an input row (`df['__join_zip']`). -/
def joinKey (row : InputRow) : String := clean_zip_codes (cellToStr row.zipCell)

/-- `if exclude_low_pop: ref_df = ref_df[ref_df['population'] >= 100]`. -/
def filterRef (exclude_low_pop : Bool) (ref : List RefRow) : List RefRow :=
  if exclude_low_pop then ref.filter (fun r => 100 ≤ r.population) else ref

/-- The reference rows whose key equals `k` (the right side of the merge). -/
def matchesFor (ref : List RefRow) (k : String) : List RefRow :=
  ref.filter (fun r => r.zip_code == k)

/-- One output row of the left merge: the input row plus the three
demographic fields (already under their presentation names; renaming
does not change values). `none` fields mean no reference match. -/
structure MergedRow where
  src : InputRow
  income : Option Int
  age : Option Int
  pop : Option Nat
  deriving DecidableEq

/-- The merge output rows produced by one input row: one NaN-filled row
when no reference key matches, one row per matching reference row
otherwise. -/
def enrichRow (ref : List RefRow) (row : InputRow) : List MergedRow :=
  if matchesFor ref (joinKey row) = [] then [⟨row, none, none, none⟩]
  else (matchesFor ref (joinKey row)).map
    (fun r => ⟨row, r.median_income, r.median_age, some r.population⟩)

/-- `pd.merge(df, ref_df, left_on='__join_zip', right_on='zip_code',
how='left')`: left rows in order, each expanded by its matches. -/
def mergeLeft (ref : List RefRow) (rows : List InputRow) : List MergedRow :=
  rows.flatMap (enrichRow ref)

/-- The summary numbers of the processing block. -/
structure Metrics where
  total_rows : Nat
  matched_rows : Nat
  match_rate : ℚ
  deriving DecidableEq

/-- `total_rows`, `matched_rows` (count of non-missing income values) and
`match_rate` as computed in src/app.py lines 272-274. -/
def computeMetrics (out : List MergedRow) : Metrics :=
  let t := out.length
  let m := (out.filter (fun r => r.income.isSome)).length
  ⟨t, m, if 0 < t then (m : ℚ) / (t : ℚ) else 0⟩

/-! ### Presentation column ordering (src/app.py lines 251, 259, 262-269, 301-308)

Column-name-level model of the same block plus the display reordering:
```
df['__join_zip'] = ...                       # appends a column
merged = pd.merge(df, ref_df, ...)           # left columns then right columns
merged = merged.rename(columns={...})
final_df = merged.drop(columns=[c for c in cols_to_drop if c in merged.columns])
metric_cols = ['Estimated household income', 'Median age', 'Zip population']
cols = list(final_df.columns)
for c in metric_cols + [zip_col]:
    if c in cols: cols.remove(c)
display_order = [zip_col] + metric_cols + cols
```
-/

/-- The columns of the reference table (`census_reference.csv` schema). -/
def refColNames : List String := ["zip_code", "median_income", "median_age", "population"]

/-- The `merged.rename(columns={...})` mapping of src/app.py lines 262-266. -/
def renameCol (c : String) : String :=
  if c = "median_income" then "Estimated household income"
  else if c = "median_age" then "Median age"
  else if c = "population" then "Zip population"
  else c

/-- `metric_cols` of src/app.py line 301. -/
def metric_cols : List String := ["Estimated household income", "Median age", "Zip population"]

/-- `cols_to_drop` of src/app.py line 268. -/
def cols_to_drop : List String := ["__join_zip", "zip_code"]

/-- The columns of `final_df`: input columns, plus the appended join key,
plus the reference columns; renamed; with `cols_to_drop` dropped. -/
def finalCols (inCols : List String) : List String :=
  (((inCols ++ ["__join_zip"]) ++ refColNames).map renameCol).filter
    (fun c => !(cols_to_drop.contains c))

/-- `for c in toRemove: if c in cols: cols.remove(c)` — remove the first
occurrence of each listed name, skipping absent names. -/
def removeEach (cols : List String) (toRemove : List String) : List String :=
  toRemove.foldl (fun acc c => acc.erase c) cols

/-- `display_order` (src/app.py line 307) applied to `final_df`'s columns. -/
def displayOrder (zipCol : String) (inCols : List String) : List String :=
  [zipCol] ++ metric_cols ++ removeEach (finalCols inCols) (metric_cols ++ [zipCol])

/-- The column names the processing block introduces or treats specially.
An input table whose own headers collide with these is mangled by pandas
merge suffixing / renaming (see `mergeCols`); the ordering property only
holds for input tables that avoid them. -/
def reservedNames : List String :=
  ["__join_zip", "zip_code", "median_income", "median_age", "population",
   "Estimated household income", "Median age", "Zip population"]

/-- The column names produced by `pd.merge(df, ref_df, ...)` at
src/app.py line 259 in full generality: left columns in order, then right
columns in order, where a name occurring in both frames is suffixed `_x`
on the left copy and `_y` on the right copy (pandas' default suffixes).
`finalCols` below is the special case where no name collides. -/
def mergeCols (leftCols rightCols : List String) : List String :=
  leftCols.map (fun c => if c ∈ rightCols then c ++ "_x" else c) ++
  rightCols.map (fun c => if c ∈ leftCols then c ++ "_y" else c)

/-- The columns of `final_df` with merge suffixing taken into account:
input columns plus the appended join key, merged (with suffixes) against
the reference columns, renamed, with `cols_to_drop` dropped. -/
def finalColsSuffixed (inCols : List String) : List String :=
  ((mergeCols (inCols ++ ["__join_zip"]) refColNames).map renameCol).filter
    (fun c => !(cols_to_drop.contains c))

/-- The `display_order` list of src/app.py line 307 over the suffix-aware
`final_df` columns. -/
def displayOrderSuffixed (zipCol : String) (inCols : List String) : List String :=
  [zipCol] ++ metric_cols ++
    removeEach (finalColsSuffixed inCols) (metric_cols ++ [zipCol])

/-- `final_df[display_order]` (src/app.py line 308) succeeds exactly when
every selected name is a column of `final_df`; selecting a missing name
raises an uncaught `KeyError` (the display phase is outside the
try/except). -/
def selectionOk (cols selected : List String) : Prop := ∀ c ∈ selected, c ∈ cols

/-! ### Claim-side definitions

These two definitions follow the words of the claims (not the source) and
are compared against the source-derived behaviour. -/

/-- From the words of claim C4: an input row "whose canonical ZIP has a
match in the (possibly population-filtered) reference table", regardless
of whether the matched reference row carries an income value. -/
def rowHasRefMatch (ref : List RefRow) (row : InputRow) : Bool :=
  ref.any (fun r => r.zip_code == joinKey row)

/-- What the code actually counts as matched: the row's canonical ZIP
matches a reference row whose `median_income` is present. -/
def rowMatchedWithIncome (ref : List RefRow) (row : InputRow) : Bool :=
  ref.any (fun r => r.zip_code == joinKey row && r.median_income.isSome)

/-! ### Lemmas about the normalizer -/

lemma mem_of_mem_takeWhile {p : Char → Bool} {l : List Char} {a : Char}
    (h : a ∈ l.takeWhile p) : a ∈ l :=
  List.Sublist.mem h (List.takeWhile_sublist p)

lemma ne_dot_of_mem_dropDot {l : List Char} {a : Char} (h : a ∈ dropDot l) : a ≠ '.' := by
  have := List.mem_takeWhile_imp h
  simpa using this

lemma ne_dash_of_mem_dropDash {l : List Char} {a : Char} (h : a ∈ dropDash l) : a ≠ '-' := by
  have := List.mem_takeWhile_imp h
  simpa using this

lemma mem_of_mem_stripChars {l : List Char} {a : Char} (h : a ∈ stripChars l) : a ∈ l := by
  unfold stripChars at h
  rw [List.mem_reverse] at h
  have h1 := List.Sublist.mem h (List.dropWhile_sublist _)
  rw [List.mem_reverse] at h1
  exact List.Sublist.mem h1 (List.dropWhile_sublist _)

lemma mem_zfill5 {l : List Char} {a : Char} (h : a ∈ zfill5 l) : a ∈ l ∨ a = '0' := by
  cases l with
  | nil =>
    simp only [zfill5] at h
    right
    exact List.eq_of_mem_replicate h
  | cons c rest =>
    simp only [zfill5] at h
    split at h <;> simp only [List.mem_cons, List.mem_append] at h <;>
      rcases h with h | h | h
    · exact Or.inl (by simp [h])
    · exact Or.inr (List.eq_of_mem_replicate h)
    · exact Or.inl (by simp [h])
    · exact Or.inr (List.eq_of_mem_replicate h)
    · exact Or.inl (by simp [h])
    · exact Or.inl (by simp [h])

lemma cleanList_no_dot {l : List Char} : '.' ∉ cleanList l := by
  intro h
  rcases mem_zfill5 h with h' | h'
  · exact ne_dot_of_mem_dropDot (mem_of_mem_takeWhile (mem_of_mem_stripChars h')) rfl
  · exact absurd h' (by decide)

lemma cleanList_no_dash {l : List Char} : '-' ∉ cleanList l := by
  intro h
  rcases mem_zfill5 h with h' | h'
  · exact ne_dash_of_mem_dropDash (mem_of_mem_stripChars h') rfl
  · exact absurd h' (by decide)

lemma head?_dropWhile_false (p : Char → Bool) (l : List Char) :
    ∀ c, (l.dropWhile p).head? = some c → p c = false := by
  induction l with
  | nil => intro c h; simp at h
  | cons a t ih =>
    intro c h
    rw [List.dropWhile_cons] at h
    by_cases hp : p a = true
    · rw [if_pos hp] at h
      exact ih c h
    · rw [if_neg hp] at h
      simp only [List.head?_cons, Option.some.injEq] at h
      subst h
      exact Bool.eq_false_iff.mpr hp

lemma dropWhile_eq_self_of_head (p : Char → Bool) (l : List Char)
    (h : ∀ c, l.head? = some c → p c = false) : l.dropWhile p = l := by
  cases l with
  | nil => rfl
  | cons a t =>
    rw [List.dropWhile_cons, if_neg]
    rw [h a rfl]
    simp

lemma getLast?_dropWhile_of_ne_nil (p : Char → Bool) (l : List Char)
    (h : l.dropWhile p ≠ []) : (l.dropWhile p).getLast? = l.getLast? := by
  induction l with
  | nil => simp at h
  | cons a t ih =>
    rw [List.dropWhile_cons]
    rw [List.dropWhile_cons] at h
    by_cases hp : p a = true
    · rw [if_pos hp] at h ⊢
      have ht : t ≠ [] := by
        intro he
        subst he
        simp at h
      cases t with
      | nil => exact absurd rfl ht
      | cons b rs =>
        rw [List.getLast?_cons_cons]
        exact ih h
    · rw [if_neg hp]

lemma stripChars_eq_self (l : List Char)
    (h1 : ∀ c, l.head? = some c → isPySpace c = false)
    (h2 : ∀ c, l.getLast? = some c → isPySpace c = false) : stripChars l = l := by
  unfold stripChars
  rw [dropWhile_eq_self_of_head _ _ h1]
  rw [dropWhile_eq_self_of_head]
  · exact l.reverse_reverse
  · intro c hc
    rw [List.head?_reverse] at hc
    exact h2 c hc

lemma getLast?_stripChars_false (l : List Char) :
    ∀ c, (stripChars l).getLast? = some c → isPySpace c = false := by
  intro c h
  unfold stripChars at h
  rw [List.getLast?_reverse] at h
  exact head?_dropWhile_false _ _ c h

lemma head?_stripChars_false (l : List Char) :
    ∀ c, (stripChars l).head? = some c → isPySpace c = false := by
  intro c h
  unfold stripChars at h
  rw [List.head?_reverse] at h
  by_cases hne : (((l.dropWhile isPySpace).reverse).dropWhile isPySpace) = []
  · rw [hne] at h
    simp at h
  · rw [getLast?_dropWhile_of_ne_nil _ _ hne, List.getLast?_reverse] at h
    exact head?_dropWhile_false _ _ c h

lemma getLast?_append_cons (l₁ : List Char) (b : Char) (l₂ : List Char) :
    (l₁ ++ b :: l₂).getLast? = (b :: l₂).getLast? := by
  rw [List.getLast?_append]
  cases h : (b :: l₂).getLast? with
  | none =>
    rw [List.getLast?_eq_none_iff] at h
    exact absurd h (by simp)
  | some z => rfl

lemma zfill5_length (l : List Char) : (zfill5 l).length = max 5 l.length := by
  cases l with
  | nil => simp [zfill5]
  | cons c rest =>
    simp only [zfill5]
    split <;> simp only [List.length_cons, List.length_append, List.length_replicate] <;> omega

lemma zfill5_of_length_ge {l : List Char} (h : 5 ≤ l.length) : zfill5 l = l := by
  cases l with
  | nil => simp at h
  | cons c rest =>
    simp only [List.length_cons] at h
    have h4 : 4 - rest.length = 0 := by omega
    simp only [zfill5, h4]
    split <;> simp

lemma stripChars_zfill5_stripChars (u : List Char) :
    stripChars (zfill5 (stripChars u)) = zfill5 (stripChars u) := by
  have h1 := head?_stripChars_false u
  have h2 := getLast?_stripChars_false u
  cases ht : stripChars u with
  | nil => decide
  | cons c rest =>
    rw [ht] at h1 h2
    have hc : isPySpace c = false := h1 c rfl
    apply stripChars_eq_self
    · intro z hz
      simp only [zfill5] at hz
      split at hz
      · simp only [List.head?_cons, Option.some.injEq] at hz
        subst hz
        exact hc
      · cases h4 : 4 - rest.length with
        | zero =>
          rw [h4] at hz
          simp only [List.replicate, List.nil_append, List.head?_cons,
            Option.some.injEq] at hz
          subst hz
          exact hc
        | succ m =>
          rw [h4, List.replicate_succ] at hz
          simp only [List.cons_append, List.head?_cons, Option.some.injEq] at hz
          subst hz
          decide
    · intro z hz
      simp only [zfill5] at hz
      split at hz
      · cases rest with
        | nil =>
          have h0 : ∀ s : Char,
              (s :: (List.replicate (4 - List.length ([] : List Char)) '0' ++
                ([] : List Char))).getLast? = some '0' := fun s => rfl
          rw [h0 c] at hz
          have hz0 : z = '0' := (Option.some.inj hz).symm
          subst hz0
          decide
        | cons b rs =>
          rw [← List.cons_append, getLast?_append_cons] at hz
          refine h2 z ?_
          rw [List.getLast?_cons_cons]
          exact hz
      · rw [getLast?_append_cons] at hz
        exact h2 z hz

lemma cleanList_mem_ne_dot {l : List Char} {a : Char} (h : a ∈ cleanList l) :
    (a != '.') = true := by
  have : a ≠ '.' := by
    intro he
    subst he
    exact cleanList_no_dot h
  simpa using this

lemma cleanList_mem_ne_dash {l : List Char} {a : Char} (h : a ∈ cleanList l) :
    (a != '-') = true := by
  have : a ≠ '-' := by
    intro he
    subst he
    exact cleanList_no_dash h
  simpa using this

/-- Idempotence of the element-wise normalization. -/
lemma cleanList_idem (l : List Char) : cleanList (cleanList l) = cleanList l := by
  have hdot : dropDot (cleanList l) = cleanList l :=
    List.takeWhile_eq_self_iff.mpr (fun a ha => cleanList_mem_ne_dot ha)
  have hdash : dropDash (cleanList l) = cleanList l :=
    List.takeWhile_eq_self_iff.mpr (fun a ha => cleanList_mem_ne_dash ha)
  have hstrip : stripChars (cleanList l) = cleanList l :=
    stripChars_zfill5_stripChars (dropDash (dropDot l))
  have hlen : 5 ≤ (cleanList l).length := by
    have := zfill5_length (coreList l)
    simp only [cleanList]
    omega
  calc cleanList (cleanList l)
      = zfill5 (stripChars (dropDash (dropDot (cleanList l)))) := rfl
    _ = zfill5 (cleanList l) := by rw [hdot, hdash, hstrip]
    _ = cleanList l := zfill5_of_length_ge hlen

/-! ### Lemmas about the join and the metrics -/

lemma filterRef_sublist (excl : Bool) (ref : List RefRow) :
    (filterRef excl ref).Sublist ref := by
  unfold filterRef
  split
  · exact List.filter_sublist ref
  · exact List.Sublist.refl ref

lemma mem_of_mem_filterRef {excl : Bool} {ref : List RefRow} {r : RefRow}
    (h : r ∈ filterRef excl ref) : r ∈ ref :=
  List.Sublist.mem h (filterRef_sublist excl ref)

lemma filterRef_nodup_keys (excl : Bool) {ref : List RefRow}
    (h : (ref.map RefRow.zip_code).Nodup) :
    ((filterRef excl ref).map RefRow.zip_code).Nodup :=
  List.Sublist.nodup (List.Sublist.map RefRow.zip_code (filterRef_sublist excl ref)) h

lemma length_matchesFor_le_one {ref : List RefRow}
    (h : (ref.map RefRow.zip_code).Nodup) (k : String) :
    (matchesFor ref k).length ≤ 1 := by
  induction ref with
  | nil => simp [matchesFor]
  | cons r rest ih =>
    simp only [List.map_cons, List.nodup_cons] at h
    obtain ⟨hnm, hnd⟩ := h
    unfold matchesFor
    rw [List.filter_cons]
    by_cases hb : (r.zip_code == k) = true
    · rw [if_pos hb]
      have hnil : rest.filter (fun r' => r'.zip_code == k) = [] := by
        rw [List.filter_eq_nil_iff]
        intro r' hr' hbe
        apply hnm
        have : r'.zip_code = k := eq_of_beq hbe
        have hzk : r.zip_code = k := eq_of_beq hb
        rw [← hzk] at this
        exact this ▸ List.mem_map_of_mem RefRow.zip_code hr'
      rw [hnil]
      simp
    · rw [if_neg hb]
      exact ih hnd

lemma length_enrichRow {ref : List RefRow} (h : (ref.map RefRow.zip_code).Nodup)
    (row : InputRow) : (enrichRow ref row).length = 1 := by
  unfold enrichRow
  by_cases hm : matchesFor ref (joinKey row) = []
  · rw [if_pos hm]
    rfl
  · rw [if_neg hm]
    rw [List.length_map]
    have hle := length_matchesFor_le_one h (joinKey row)
    have hpos : 0 < (matchesFor ref (joinKey row)).length := List.length_pos.mpr hm
    omega

lemma countIncome_enrichRow {ref : List RefRow} (h : (ref.map RefRow.zip_code).Nodup)
    (row : InputRow) :
    ((enrichRow ref row).filter (fun m => m.income.isSome)).length =
      if rowMatchedWithIncome ref row then 1 else 0 := by
  have hany : rowMatchedWithIncome ref row =
      (matchesFor ref (joinKey row)).any (fun r => r.median_income.isSome) := by
    unfold rowMatchedWithIncome matchesFor
    rw [List.any_filter]
  unfold enrichRow
  cases hm : matchesFor ref (joinKey row) with
  | nil =>
    rw [if_pos rfl]
    rw [hany, hm]
    simp [List.filter]
  | cons m ms =>
    have hms : ms = [] := by
      have := length_matchesFor_le_one h (joinKey row)
      rw [hm] at this
      simp only [List.length_cons] at this
      exact List.length_eq_zero.mp (by omega)
    subst hms
    rw [if_neg (by simp)]
    rw [hany, hm]
    cases hi : m.median_income.isSome <;>
      simp [List.filter_cons, List.filter, hi]

lemma matched_mergeLeft {ref : List RefRow} (h : (ref.map RefRow.zip_code).Nodup)
    (rows : List InputRow) :
    ((mergeLeft ref rows).filter (fun m => m.income.isSome)).length =
      rows.countP (rowMatchedWithIncome ref) := by
  induction rows with
  | nil => rfl
  | cons row rest ih =>
    unfold mergeLeft at ih ⊢
    rw [List.flatMap_cons, List.filter_append, List.length_append, ih,
      countIncome_enrichRow h row, List.countP_cons]
    by_cases hb : rowMatchedWithIncome ref row = true
    · rw [if_pos hb]
      omega
    · rw [if_neg hb]
      omega

lemma length_mergeLeft {ref : List RefRow} (h : (ref.map RefRow.zip_code).Nodup)
    (rows : List InputRow) : (mergeLeft ref rows).length = rows.length := by
  induction rows with
  | nil => rfl
  | cons row rest ih =>
    unfold mergeLeft at ih ⊢
    rw [List.flatMap_cons, List.length_append, ih, length_enrichRow h row,
      List.length_cons]
    omega

/-! ### Lemmas about the detector and the column ordering -/

lemma mem_of_find_zip_column {cols : List String} {z : String}
    (h : find_zip_column cols = some z) : z ∈ cols := by
  unfold find_zip_column at h
  cases hf : cols.find? (fun col => zipCandidates.contains (stripStr (lowerStr col))) with
  | some c =>
    rw [hf] at h
    have hz : c = z := Option.some.inj h
    subst hz
    exact List.mem_of_find?_eq_some hf
  | none =>
    rw [hf] at h
    exact List.mem_of_find?_eq_some h

lemma finalCols_eq {inCols : List String}
    (hres : ∀ c ∈ inCols, c ∉ reservedNames) :
    finalCols inCols =
      inCols ++ ["Estimated household income", "Median age", "Zip population"] := by
  unfold finalCols
  have hmap : (inCols ++ ["__join_zip"] ++ refColNames).map renameCol =
      inCols ++ ["__join_zip"] ++ ["zip_code", "Estimated household income",
        "Median age", "Zip population"] := by
    rw [List.map_append, List.map_append]
    have h1 : inCols.map renameCol = inCols := by
      have hcg : ∀ c ∈ inCols, renameCol c = id c := by
        intro c hc
        have hr := hres c hc
        simp only [reservedNames, List.mem_cons, List.mem_singleton] at hr
        push_neg at hr
        unfold renameCol
        rw [if_neg hr.2.2.1, if_neg hr.2.2.2.1, if_neg hr.2.2.2.2.1]
        rfl
      rw [List.map_congr_left hcg, List.map_id]
    rw [h1]
    rfl
  rw [hmap]
  rw [List.filter_append, List.filter_append]
  have h2 : inCols.filter (fun c => !(cols_to_drop.contains c)) = inCols := by
    rw [List.filter_eq_self]
    intro c hc
    have hr := hres c hc
    simp only [reservedNames, List.mem_cons, List.mem_singleton] at hr
    push_neg at hr
    simp only [cols_to_drop]
    simp
    exact ⟨hr.1, hr.2.1⟩
  have hf1 : List.filter (fun c => !(cols_to_drop.contains c)) ["__join_zip"] = [] := by
    decide
  have hf2 : List.filter (fun c => !(cols_to_drop.contains c))
      ["zip_code", "Estimated household income", "Median age", "Zip population"] =
      ["Estimated household income", "Median age", "Zip population"] := by
    decide
  rw [h2, hf1, hf2, List.append_nil]

lemma mergeCols_disjoint (left right : List String)
    (hl : ∀ c ∈ left, c ∉ right)
    (hr : ∀ c ∈ right, c ∉ left) :
    mergeCols left right = left ++ right := by
  unfold mergeCols
  have h1 : ∀ c ∈ left, (if c ∈ right then c ++ "_x" else c) = id c := by
    intro c hc
    rw [if_neg (hl c hc)]
    rfl
  have h2 : ∀ c ∈ right, (if c ∈ left then c ++ "_y" else c) = id c := by
    intro c hc
    rw [if_neg (hr c hc)]
    rfl
  rw [List.map_congr_left h1, List.map_id, List.map_congr_left h2, List.map_id]

lemma finalColsSuffixed_eq_finalCols {inCols : List String}
    (hres : ∀ c ∈ inCols, c ∉ reservedNames) :
    finalColsSuffixed inCols = finalCols inCols := by
  unfold finalColsSuffixed finalCols
  rw [mergeCols_disjoint]
  · intro c hc
    rcases List.mem_append.mp hc with h1 | h2
    · intro hcr
      apply hres c h1
      have hsub : ∀ x ∈ refColNames, x ∈ reservedNames := by decide
      exact hsub c hcr
    · rw [List.mem_singleton] at h2
      subst h2
      decide
  · intro c hc hmem
    rcases List.mem_append.mp hmem with h1 | h2
    · apply hres c h1
      have hsub : ∀ x ∈ refColNames, x ∈ reservedNames := by decide
      exact hsub c hc
    · rw [List.mem_singleton] at h2
      subst h2
      exact absurd hc (by decide)

lemma displayOrderSuffixed_eq_displayOrder {inCols : List String} (zipCol : String)
    (hres : ∀ c ∈ inCols, c ∉ reservedNames) :
    displayOrderSuffixed zipCol inCols = displayOrder zipCol inCols := by
  unfold displayOrderSuffixed displayOrder
  rw [finalColsSuffixed_eq_finalCols hres]

lemma removeEach_finalCols {inCols : List String} (zipCol : String)
    (hres : ∀ c ∈ inCols, c ∉ reservedNames) :
    removeEach (finalCols inCols) (metric_cols ++ [zipCol]) =
      inCols.erase zipCol := by
  rw [finalCols_eq hres]
  have hnm : ∀ s ∈ (["Estimated household income", "Median age",
      "Zip population"] : List String), s ∉ inCols := by
    intro s hs hmem
    have := hres s hmem
    apply this
    simp only [reservedNames, List.mem_cons, List.mem_singleton]
    simp only [List.mem_cons, List.mem_singleton] at hs
    tauto
  unfold removeEach
  simp only [List.foldl_cons, List.foldl_nil, metric_cols, List.cons_append,
    List.nil_append]
  rw [List.erase_append_right _ (hnm _ (by simp)), List.erase_cons_head]
  rw [List.erase_append_right _ (hnm _ (by simp)), List.erase_cons_head]
  rw [List.erase_append_right _ (hnm _ (by simp)), List.erase_cons_head]
  rw [List.append_nil]

/-! ### Claim theorems -/

/-- C1 (counterexample): the reference loader's key transformation is NOT
identical to the input-side normalization — on the raw key `"90210-1234"`
the loader keeps the ZIP+4 suffix (it only zero-pads) while
`clean_zip_codes` strips it. -/
theorem c1_loader_not_normalizer :
    refLoadKey "90210-1234" = "90210-1234" ∧
    clean_zip_codes "90210-1234" = "90210" ∧
    refLoadKey "90210-1234" ≠ clean_zip_codes "90210-1234" := by
  decide

/-- C1 (amended): the reference loader applies only zero-padding to width 5;
it agrees with the input-side normalization exactly on raw key values that
contain no `.`, no `-`, and no surrounding whitespace. -/
theorem c1_loader_agrees_on_plain_keys (s : String)
    (hdot : '.' ∉ s.data) (hdash : '-' ∉ s.data)
    (hstrip : stripChars s.data = s.data) :
    refLoadKey s = clean_zip_codes s := by
  have h1 : dropDot s.data = s.data := by
    apply List.takeWhile_eq_self_iff.mpr
    intro a ha
    have : a ≠ '.' := fun he => hdot (he ▸ ha)
    simpa using this
  have h2 : dropDash s.data = s.data := by
    apply List.takeWhile_eq_self_iff.mpr
    intro a ha
    have : a ≠ '-' := fun he => hdash (he ▸ ha)
    simpa using this
  unfold refLoadKey clean_zip_codes cleanList coreList
  rw [h1, h2, hstrip]

theorem c1_loader_agrees_witness : refLoadKey "501" = clean_zip_codes "501" :=
  c1_loader_agrees_on_plain_keys "501" (by decide) (by decide) (by decide)

/-- C2 (counterexample): for headers `["Billing Zip", "zip code"]` the
detector returns `"Billing Zip"`, not `"zip code"`: `"billing zip"` is
itself in the exact candidate list, so the exact pass already accepts the
first header. -/
theorem c2_billing_zip_wins_exact_pass :
    find_zip_column ["Billing Zip", "zip code"] = some "Billing Zip" ∧
    find_zip_column ["Billing Zip", "zip code"] ≠ some "zip code" := by
  decide

/-- C2 (amended): for `["Billing Zip", "zip code"]` the exact pass selects
`"Billing Zip"` (an exact candidate, first in column order); exact matching
is indeed preferred over an earlier column that matches only fuzzily, as
`["Zip Number", "zip code"]` shows — `"Zip Number"` only contains `"zip"`
but `"zip code"` is exact, so the latter wins. -/
theorem c2_exact_match_preferred :
    find_zip_column ["Billing Zip", "zip code"] = some "Billing Zip" ∧
    find_zip_column ["Zip Number", "zip code"] = some "zip code" := by
  decide

/-- C3: with unique reference keys, the left join emits exactly one output
row per input row, whatever the match rate: the enriched output of `N`
input rows has exactly `N` rows. -/
theorem c3_left_join_preserves_cardinality (ref : List RefRow)
    (rows : List InputRow) (excl : Bool)
    (h : (ref.map RefRow.zip_code).Nodup) :
    (mergeLeft (filterRef excl ref) rows).length = rows.length :=
  length_mergeLeft (filterRef_nodup_keys excl h) rows

theorem c3_cardinality_witness :
    (mergeLeft (filterRef true [⟨"00501", some 1, some 2, 150⟩])
      [⟨some "501", []⟩, ⟨none, []⟩]).length = 2 :=
  c3_left_join_preserves_cardinality _ _ _ (by decide)

/-- C4 (counterexample): a row whose ZIP matches a reference row with an
absent `median_income` is NOT counted in `matched_rows` — the code counts
non-missing income values, not key matches. Here the single input row has
a reference match (the claim counts 1) but `matched_rows = 0`. -/
theorem c4_matched_rows_miscounts_absent_income :
    rowHasRefMatch (filterRef false [⟨"00501", none, some 40, 5000⟩])
      ⟨some "00501", []⟩ = true ∧
    ([(⟨some "00501", []⟩ : InputRow)].countP
      (rowHasRefMatch (filterRef false [⟨"00501", none, some 40, 5000⟩]))) = 1 ∧
    (computeMetrics (mergeLeft (filterRef false [⟨"00501", none, some 40, 5000⟩])
      [⟨some "00501", []⟩])).matched_rows = 0 := by
  decide

/-- C4 (amended): with unique reference keys, `matched_rows` equals the
number of input rows whose canonical ZIP matches a reference row of the
(possibly population-filtered) table **whose `median_income` is present**;
`total_rows` is the input row count and
`match_rate = matched_rows / total_rows`, 0 when `total_rows = 0`. -/
theorem c4_matched_rows_income_present (ref : List RefRow)
    (rows : List InputRow) (excl : Bool)
    (h : (ref.map RefRow.zip_code).Nodup) :
    (computeMetrics (mergeLeft (filterRef excl ref) rows)).matched_rows =
      rows.countP (rowMatchedWithIncome (filterRef excl ref)) ∧
    (computeMetrics (mergeLeft (filterRef excl ref) rows)).total_rows =
      rows.length ∧
    (computeMetrics (mergeLeft (filterRef excl ref) rows)).match_rate =
      (if rows.length = 0 then 0 else
        ((computeMetrics (mergeLeft (filterRef excl ref) rows)).matched_rows : ℚ) /
          (rows.length : ℚ)) := by
  have hn := filterRef_nodup_keys excl h
  have hm := matched_mergeLeft hn rows
  have hl := length_mergeLeft hn rows
  refine ⟨hm, hl, ?_⟩
  show (if 0 < (mergeLeft (filterRef excl ref) rows).length then
      (((mergeLeft (filterRef excl ref) rows).filter
        (fun r => r.income.isSome)).length : ℚ) /
        ((mergeLeft (filterRef excl ref) rows).length : ℚ) else 0) = _
  rw [hl]
  by_cases h0 : rows.length = 0
  · rw [if_neg (by omega), if_pos h0]
  · rw [if_pos (by omega), if_neg h0]
    rfl

theorem c4_metrics_witness :
    (computeMetrics (mergeLeft
      (filterRef false [⟨"00501", some 120000, some 41, 34000⟩])
      [⟨some "00501", []⟩, ⟨some "99999", []⟩])).matched_rows =
      [(⟨some "00501", []⟩ : InputRow), ⟨some "99999", []⟩].countP
        (rowMatchedWithIncome (filterRef false
          [⟨"00501", some 120000, some 41, 34000⟩])) ∧
    (computeMetrics (mergeLeft
      (filterRef false [⟨"00501", some 120000, some 41, 34000⟩])
      [⟨some "00501", []⟩, ⟨some "99999", []⟩])).total_rows = 2 ∧
    (computeMetrics (mergeLeft
      (filterRef false [⟨"00501", some 120000, some 41, 34000⟩])
      [⟨some "00501", []⟩, ⟨some "99999", []⟩])).match_rate =
      (if (2 : Nat) = 0 then 0 else
        ((computeMetrics (mergeLeft
          (filterRef false [⟨"00501", some 120000, some 41, 34000⟩])
          [⟨some "00501", []⟩, ⟨some "99999", []⟩])).matched_rows : ℚ) / (2 : ℚ)) :=
  c4_matched_rows_income_present _ _ _ (by decide)

/-- C5 (counterexample): the claimed ordering does not hold for every input
table. With headers `["customer_id", "zip_code"]` — `zip_code` being the
app's own recommended header (src/app.py line 36) and an exact detector
candidate — the merge at line 259 suffixes the colliding name, so the raw
reference key column survives in `final_df` as `zip_code_y` (contradicting
"never appear in the output"), `zip_code` itself is no longer a column of
`final_df`, and the selection `final_df[display_order]` at line 308
references the missing name `zip_code`: an uncaught `KeyError`, so the
claimed column order is never produced at all. -/
theorem c5_zip_code_header_breaks_claim :
    find_zip_column ["customer_id", "zip_code"] = some "zip_code" ∧
    "zip_code_y" ∈ finalColsSuffixed ["customer_id", "zip_code"] ∧
    "zip_code" ∉ finalColsSuffixed ["customer_id", "zip_code"] ∧
    ¬ selectionOk (finalColsSuffixed ["customer_id", "zip_code"])
        (displayOrderSuffixed "zip_code" ["customer_id", "zip_code"]) := by
  refine ⟨by decide, by decide, by decide, ?_⟩
  unfold selectionOk
  decide

/-- C5 (amended): for input tables whose headers avoid the engine's
reserved/working column names (no merge suffixing occurs there, see
`finalColsSuffixed_eq_finalCols`), the output columns are: the detected
ZIP column first, then the three demographic fields in fixed order, then
the remaining input columns in their original relative order; the working
join key `__join_zip` and the raw reference key `zip_code` never appear. -/
theorem c5_output_column_order (inCols : List String) (zipCol : String)
    (hfind : find_zip_column inCols = some zipCol)
    (hres : ∀ c ∈ inCols, c ∉ reservedNames) :
    displayOrder zipCol inCols = zipCol :: metric_cols ++ inCols.erase zipCol ∧
    "__join_zip" ∉ displayOrder zipCol inCols ∧
    "zip_code" ∉ displayOrder zipCol inCols := by
  have hzin : zipCol ∈ inCols := mem_of_find_zip_column hfind
  have heq : displayOrder zipCol inCols =
      zipCol :: metric_cols ++ inCols.erase zipCol := by
    unfold displayOrder
    rw [removeEach_finalCols zipCol hres]
    rfl
  refine ⟨heq, ?_, ?_⟩
  · rw [heq]
    intro hmem
    rcases List.mem_cons.mp hmem with hz | hmem'
    · exact hres zipCol hzin (hz ▸ (show "__join_zip" ∈ reservedNames by decide))
    · rcases List.mem_append.mp hmem' with hm | he
      · exact absurd hm (by decide)
      · exact hres _ (List.Sublist.mem he (List.erase_sublist _ _)) (by decide)
  · rw [heq]
    intro hmem
    rcases List.mem_cons.mp hmem with hz | hmem'
    · exact hres zipCol hzin (hz ▸ (show "zip_code" ∈ reservedNames by decide))
    · rcases List.mem_append.mp hmem' with hm | he
      · exact absurd hm (by decide)
      · exact hres _ (List.Sublist.mem he (List.erase_sublist _ _)) (by decide)

theorem c5_column_order_witness :
    displayOrder "zip" ["customer_id", "email", "zip"] =
      "zip" :: metric_cols ++ ["customer_id", "email", "zip"].erase "zip" ∧
    "__join_zip" ∉ displayOrder "zip" ["customer_id", "email", "zip"] ∧
    "zip_code" ∉ displayOrder "zip" ["customer_id", "email", "zip"] :=
  c5_output_column_order _ _ (by decide) (by decide)

/-- C6: normalization is total and deterministic (a pure function); its
result has length `max 5 (core length)` — so exactly 5 characters whenever
the stripped core has at most 5 characters, never truncated, and an input
still ≥ 5 characters after the stripping steps is passed through
unpadded. -/
theorem c6_normalize_total_width (s : String) :
    (clean_zip_codes s).length = max 5 (coreList s.data).length ∧
    ((coreList s.data).length ≤ 5 → (clean_zip_codes s).length = 5) ∧
    (5 ≤ (coreList s.data).length → clean_zip_codes s = ⟨coreList s.data⟩) := by
  have hlen : (clean_zip_codes s).length = max 5 (coreList s.data).length := by
    show (cleanList s.data).length = _
    exact zfill5_length _
  refine ⟨hlen, fun h => by rw [hlen]; omega, fun h => ?_⟩
  show (⟨cleanList s.data⟩ : String) = ⟨coreList s.data⟩
  exact congrArg String.mk (zfill5_of_length_ge h)

theorem c6_width_witness :
    (clean_zip_codes "90210-1234").length = 5 ∧
    clean_zip_codes "1234567" = "1234567" := by
  constructor
  · exact (c6_normalize_total_width "90210-1234").2.1 (by decide)
  · have h := (c6_normalize_total_width "1234567").2.2 (by decide)
    rw [h]
    decide

/-- C7: normalization is idempotent —
`clean_zip_codes (clean_zip_codes s) = clean_zip_codes s` for every
string `s`. -/
theorem c7_normalize_idempotent (s : String) :
    clean_zip_codes (clean_zip_codes s) = clean_zip_codes s :=
  congrArg String.mk (cleanList_idem s.data)

/-- C8: with `exclude_low_pop = true`, the reference row
`{zip "00501", population 50}` never produces a match, even for an input
row whose canonical ZIP is `"00501"`; with the flag false, the same input
row matches it. -/
theorem c8_population_floor_filter (c : Cell) (rest : List String)
    (h : clean_zip_codes (cellToStr c) = "00501") :
    enrichRow (filterRef true [⟨"00501", some 75000, some 40, 50⟩]) ⟨c, rest⟩ =
      [⟨⟨c, rest⟩, none, none, none⟩] ∧
    enrichRow (filterRef false [⟨"00501", some 75000, some 40, 50⟩]) ⟨c, rest⟩ =
      [⟨⟨c, rest⟩, some 75000, some 40, some 50⟩] := by
  have hk : joinKey ⟨c, rest⟩ = "00501" := h
  constructor
  · have hft : filterRef true [(⟨"00501", some 75000, some 40, 50⟩ : RefRow)] = [] := by
      decide
    rw [hft]
    rfl
  · unfold enrichRow
    rw [hk]
    rw [show matchesFor (filterRef false [(⟨"00501", some 75000, some 40, 50⟩ : RefRow)])
      "00501" = [⟨"00501", some 75000, some 40, 50⟩] from by decide]
    rw [if_neg (by simp)]
    rfl

theorem c8_population_floor_witness :
    enrichRow (filterRef true [⟨"00501", some 75000, some 40, 50⟩])
      ⟨some "00501", []⟩ = [⟨⟨some "00501", []⟩, none, none, none⟩] ∧
    enrichRow (filterRef false [⟨"00501", some 75000, some 40, 50⟩])
      ⟨some "00501", []⟩ =
      [⟨⟨some "00501", []⟩, some 75000, some 40, some 50⟩] :=
  c8_population_floor_filter (some "00501") [] (by decide)

/-- C9: an empty input table is not an error: the join yields an empty
output sequence, `total_rows = 0` and `match_rate = 0`. -/
theorem c9_empty_input_ok (ref : List RefRow) (excl : Bool) :
    mergeLeft (filterRef excl ref) [] = [] ∧
    (computeMetrics (mergeLeft (filterRef excl ref) [])).total_rows = 0 ∧
    (computeMetrics (mergeLeft (filterRef excl ref) [])).match_rate = 0 :=
  ⟨rfl, rfl, rfl⟩

/-- C10: a missing (NaN) ZIP cell stringifies to `"nan"` and normalizes to
the canonical key `"00nan"`; since every reference key is all digits, the
row is emitted with absent demographic fields, counted in `total_rows`
but not in `matched_rows`, and no error is raised. -/
theorem c10_missing_zip_cell (ref : List RefRow) (excl : Bool)
    (rest : List String)
    (hdig : ∀ r ∈ ref, r.zip_code.data.all Char.isDigit = true) :
    clean_zip_codes (cellToStr none) = "00nan" ∧
    enrichRow (filterRef excl ref) ⟨none, rest⟩ =
      [⟨⟨none, rest⟩, none, none, none⟩] ∧
    (computeMetrics (mergeLeft (filterRef excl ref) [⟨none, rest⟩])).total_rows = 1 ∧
    (computeMetrics (mergeLeft (filterRef excl ref) [⟨none, rest⟩])).matched_rows = 0 := by
  have hkey : joinKey (⟨none, rest⟩ : InputRow) = "00nan" := by
    show clean_zip_codes (cellToStr none) = "00nan"
    decide
  have hnil : matchesFor (filterRef excl ref) (joinKey ⟨none, rest⟩) = [] := by
    unfold matchesFor
    rw [List.filter_eq_nil_iff]
    intro r hr hb
    rw [hkey] at hb
    have hz : r.zip_code = "00nan" := eq_of_beq hb
    have hd := hdig r (mem_of_mem_filterRef hr)
    rw [hz] at hd
    exact absurd hd (by decide)
  have hrow : enrichRow (filterRef excl ref) ⟨none, rest⟩ =
      [⟨⟨none, rest⟩, none, none, none⟩] := by
    unfold enrichRow
    rw [if_pos hnil]
  refine ⟨by decide, hrow, ?_, ?_⟩
  · show (mergeLeft (filterRef excl ref) [⟨none, rest⟩]).length = 1
    unfold mergeLeft
    rw [List.flatMap_cons, hrow]
    rfl
  · show ((mergeLeft (filterRef excl ref) [⟨none, rest⟩]).filter
      (fun r => r.income.isSome)).length = 0
    unfold mergeLeft
    rw [List.flatMap_cons, hrow]
    rfl

theorem c10_missing_zip_witness :
    clean_zip_codes (cellToStr none) = "00nan" ∧
    enrichRow (filterRef false [⟨"00501", some 1, some 2, 300⟩]) ⟨none, []⟩ =
      [⟨⟨none, []⟩, none, none, none⟩] ∧
    (computeMetrics (mergeLeft (filterRef false [⟨"00501", some 1, some 2, 300⟩])
      [⟨none, []⟩])).total_rows = 1 ∧
    (computeMetrics (mergeLeft (filterRef false [⟨"00501", some 1, some 2, 300⟩])
      [⟨none, []⟩])).matched_rows = 0 :=
  c10_missing_zip_cell [⟨"00501", some 1, some 2, 300⟩] false [] (by decide)

end CustomerEnricher
